import Mathlib

/-!
Verification development for the fantasy-football draft board
(`fantasy_football_draft_planner.py`).  The core state is a dict of pandas
DataFrames, one board per position, with columns
Rank, Player, Team, Bye, Notes, Status.

Modelling conventions:
* DataFrame cells are `Val`: NaN, an integer, or a string.  Every numeric
  value appearing in the program is integral, so the numeric domain is
  restricted to `Int` (fractional floats are out of scope).
* Python string helpers (`strip`, `split`, `int(...)`) are modelled over the
  character list of the string so that they compute inside the kernel.
* CSV text is modelled at the level of parsed records (`List (List Val)`,
  header row first).  The textual comma/quote escaping layer of
  `DataFrame.to_csv` / `pandas.read_csv` is an inverse pair and is
  abstracted away; `read_csv` numeric column inference and its
  empty-cell-to-NaN behaviour are modelled explicitly
  (`colIsNumeric` / `parseCell`).
-/

/-- Cell value of a DataFrame: NaN (missing), an integer, or a string. -/
inductive Val where
  | na : Val
  | int : Int → Val
  | str : String → Val
deriving DecidableEq

/-- One row of a board DataFrame: the six fixed columns
Rank, Player, Team, Bye, Notes, Status, each cell a raw `Val`. -/
structure Item where
  rank : Val
  player : Val
  team : Val
  bye : Val
  notes : Val
  status : Val
deriving DecidableEq

/-- Session state relevant to the boards: the ordered positions list and the
boards dict, modelled as an insertion-ordered association list keyed by the
dict key value. -/
structure Store where
  positions : List Val
  boards : List (Val × List Item)
deriving DecidableEq

/-- A watchlist row: a board row tagged with its source position
(the added Position column of `get_all_watch_players`). -/
structure WItem where
  item : Item
  position : Val
deriving DecidableEq

/-- The `player_data` dict passed to `add_player`.  The code reads only the
Player, Team, Bye and Notes keys, so a Status supplied in the dict
(`statusInput`) is never read. -/
structure PlayerData where
  player : String
  team : String
  bye : Option Int
  notes : String
  statusInput : Val
deriving DecidableEq

/-- An input row collection for `normalize_board`: which of the six fixed
columns are present, and the rows.  Cells of absent columns are ignored
(they are replaced by the fill value), extra columns are dropped by the
column reordering and are not represented. -/
structure RawBoard where
  hasRank : Bool
  hasPlayer : Bool
  hasTeam : Bool
  hasBye : Bool
  hasNotes : Bool
  hasStatus : Bool
  rows : List Item
deriving DecidableEq

/-! String helpers modelled over character lists (Python semantics). -/

/-- Whitespace characters stripped by Python `str.strip()`. -/
def isWs (c : Char) : Bool :=
  c == ' ' || c == '\t' || c == '\n' || c == '\r' || c == '\x0b' || c == '\x0c'

/-- Python `str.strip()`: drop leading and trailing whitespace. -/
def pyStrip (s : String) : String :=
  ⟨((s.data.dropWhile isWs).reverse.dropWhile isWs).reverse⟩

/-- Split a character list on a separator character; like Python
`str.split(sep)`, the empty input yields one empty field. -/
def splitChars (sep : Char) : List Char → List (List Char)
  | [] => [[]]
  | c :: rest =>
    let r := splitChars sep rest
    if c == sep then [] :: r
    else
      match r with
      | [] => [[c]]
      | g :: gs => (c :: g) :: gs

/-- Python `str.split(sep)` for a one-character separator. -/
def pySplit (sep : Char) (s : String) : List String :=
  (splitChars sep s.data).map fun cs => ⟨cs⟩

/-- Digits of a decimal literal; `none` when empty or not all digits. -/
def digitsToNat (l : List Char) : Option Nat :=
  if l ≠ [] ∧ l.all Char.isDigit then
    some (l.foldl (fun n c => 10 * n + (c.toNat - 48)) 0)
  else none

/-- Python `int(s)` on an already-stripped string: optional sign followed by
decimal digits; `none` models the `ValueError` path.  (Underscore digit
separators accepted by Python are not modelled; no input here uses them.) -/
def pyToInt (s : String) : Option Int :=
  match s.data with
  | [] => none
  | c :: rest =>
    if c == '-' then (digitsToNat rest).map fun n => -(n : Int)
    else if c == '+' then (digitsToNat rest).map fun n => (n : Int)
    else (digitsToNat (c :: rest)).map fun n => (n : Int)

/-- Lexicographic order on character lists by code point, as Python compares
strings. -/
def leChars : List Char → List Char → Bool
  | [], _ => true
  | _ :: _, [] => false
  | c :: cs, d :: ds =>
    if c.toNat < d.toNat then true
    else if d.toNat < c.toNat then false
    else leChars cs ds

/-- Python string comparison used by `sorted(...)`. -/
def leString (a b : String) : Bool := leChars a.data b.data

/-! Configuration constants of the program. -/

def DEFAULT_POSITIONS : List String := ["QB", "RB", "WR", "TE", "FLEX", "DST", "K"]

def STATUS_OPTIONS : List String := ["Available", "Drafted", "Unavailable", "Watch"]

/-- The board columns with the leading export column, in the order written
by `export_data`; also the required column set validated by `import_data`. -/
def REQUIRED_COLUMNS : List String :=
  ["Position", "Rank", "Player", "Team", "Bye", "Notes", "Status"]

/-- Sample RB data seeded by `initialize_session_state`. -/
def sampleRB : List Item :=
  [ { rank := .int 1, player := .str "Christian McCaffrey", team := .str "SF",
      bye := .int 9, notes := .str "Elite talent", status := .str "Available" },
    { rank := .int 2, player := .str "Breece Hall", team := .str "NYJ",
      bye := .int 12, notes := .str "Breakout year", status := .str "Available" },
    { rank := .int 3, player := .str "Bijan Robinson", team := .str "ATL",
      bye := .int 11, notes := .str "Rookie stud", status := .str "Available" } ]

/-! Normalizer. -/

/-- pandas `to_numeric(errors="coerce")` restricted to the integer domain:
integers and NaN pass through, numeric text converts, everything else
becomes NaN. -/
def to_numeric (v : Val) : Val :=
  match v with
  | .na => .na
  | .int i => .int i
  | .str s =>
    match pyToInt s with
    | some i => .int i
    | none => .na

/-- Effective cell of a possibly missing column: a missing text column is
filled with the empty string and a missing numeric column with None. -/
def fillCol (present : Bool) (numeric : Bool) (v : Val) : Val :=
  if present then v else if numeric then .na else .str ""

/-- Status coercion of `normalize_board`: any cell that is not one of the
four status strings becomes Available. -/
def fixStatus (v : Val) : Val :=
  if v ∈ STATUS_OPTIONS.map Val.str then v else .str "Available"

/-- Row-wise action of `normalize_board` for a given set of present
columns. -/
def normRow (rb : RawBoard) (r : Item) : Item :=
  { rank := to_numeric (fillCol rb.hasRank true r.rank)
    player := fillCol rb.hasPlayer false r.player
    team := fillCol rb.hasTeam false r.team
    bye := to_numeric (fillCol rb.hasBye true r.bye)
    notes := fillCol rb.hasNotes false r.notes
    status := fixStatus (fillCol rb.hasStatus false r.status) }

/-- `normalize_board`: empty input returns the empty board with the fixed
column set; otherwise missing columns are filled, columns are reordered to
the fixed set, Rank and Bye are coerced to numeric, and invalid Status
cells become Available.  Rank is NOT re-derived from row order here. -/
def normalize_board (rb : RawBoard) : List Item :=
  if rb.rows = [] then [] else rb.rows.map (normRow rb)

/-- View of a well-formed board as a `normalize_board` input with every
column present. -/
def boardToRaw (b : List Item) : RawBoard :=
  { hasRank := true, hasPlayer := true, hasTeam := true,
    hasBye := true, hasNotes := true, hasStatus := true, rows := b }

/-! Rank derivation. -/

/-- Assign ranks n, n+1, ... down the list
(`df["Rank"] = range(1, len(df) + 1)`). -/
def assignRanks (n : Int) : List Item → List Item
  | [] => []
  | it :: rest => { it with rank := .int n } :: assignRanks (n + 1) rest

/-- `update_ranks_from_order`: an empty board is returned unchanged,
otherwise every row's Rank is overwritten with its 1-based position. -/
def update_ranks_from_order (b : List Item) : List Item :=
  if b = [] then b else assignRanks 1 b

/-! Mutators. -/

/-- Next rank computed by `add_player`: one past the maximum integer Rank,
or 1 when the board is empty or its Rank column is all NaN.  (On a board
whose Rank column held text the original would raise in `max()`; such
boards are outside the well-formed domain `wfRanks` used below.) -/
def nextRank (b : List Item) : Int :=
  match (b.filterMap fun it =>
      match it.rank with | .int i => some i | _ => none).max? with
  | some m => m + 1
  | none => 1

def optIntVal : Option Int → Val
  | some i => .int i
  | none => .na

/-- The row appended by `add_player`: status forced to Available, the text
fields stripped of surrounding whitespace, Rank set to `nextRank` (and then
immediately overwritten by the final re-ranking). -/
def newRow (b : List Item) (p : PlayerData) : Item :=
  { rank := .int (nextRank b), player := .str (pyStrip p.player),
    team := .str (pyStrip p.team), bye := optIntVal p.bye,
    notes := .str (pyStrip p.notes), status := .str "Available" }

/-- `add_player`: append the new row and re-derive all ranks from the final
order. -/
def add_player (b : List Item) (p : PlayerData) : List Item :=
  update_ranks_from_order (b ++ [newRow b p])

/-- Nonempty stripped lines of the bulk text
(`[line.strip() for line in text.splitlines() if line.strip()]`). -/
def bulkLines (text : String) : List String :=
  ((pySplit '\n' text).map pyStrip).filter fun l => l ≠ ""

/-- One line of bulk input parsed as the code does: split on the pipe, strip
the parts, default missing trailing fields; the Bye field is parsed as an
integer and becomes unset when empty, absent, or unparseable. -/
def parseBulkLine (line : String) : PlayerData :=
  let parts := (pySplit '|' line).map pyStrip
  { player := parts.getD 0 "", team := parts.getD 1 "",
    bye := (if parts.getD 2 "" = "" then none else pyToInt (parts.getD 2 "")),
    notes := parts.getD 3 "", statusInput := .na }

/-- `bulk_add_players`: every nonempty line is parsed and, when its name
field is nonempty, added through `add_player` in line order; lines with an
empty name are silently skipped. -/
def bulk_add_players (b : List Item) (text : String) : List Item :=
  (bulkLines text).foldl
    (fun acc line =>
      let p := parseBulkLine line
      if p.player = "" then acc else add_player acc p) b

/-- `remove_selected_players`: an empty selection returns the board
unchanged (the function returns False before touching state); otherwise the
selected rows are dropped and ranks re-derived over the remaining order.
Selection indices are modelled positionally over a freshly reset index. -/
def remove_selected_players (b : List Item) (sel : List Nat) : List Item :=
  if sel = [] then b
  else update_ranks_from_order ((b.enum.filter fun pr => pr.1 ∉ sel).map fun pr => pr.2)

/-- The grid edit-reconciliation handler (position tabs): a nonempty edited
snapshot replaces the stored board wholesale after re-deriving ranks from
the snapshot order; an empty snapshot leaves the stored board untouched. -/
def reconcile_edit (b snapshot : List Item) : List Item :=
  if snapshot = [] then b else update_ranks_from_order snapshot

/-! Watchlist aggregator. -/

/-- Rank assignment of `update_ranks_from_order` applied to the watchlist
frame (same source function, instantiated at the frame with the Position
column). -/
def assignRanksW (n : Int) : List WItem → List WItem
  | [] => []
  | w :: rest =>
    { w with item := { w.item with rank := .int n } } :: assignRanksW (n + 1) rest

def update_ranks_from_order_w (l : List WItem) : List WItem :=
  if l = [] then l else assignRanksW 1 l

/-- Watch rows of every board tagged with their source position, in store
iteration order (the concatenation built by `get_all_watch_players`). -/
def watchItems (boards : List (Val × List Item)) : List WItem :=
  boards.flatMap fun pb =>
    (pb.2.filter fun it => it.status == Val.str "Watch").map fun it => ⟨it, pb.1⟩

/-- Index a name gets in the dict comprehension
`{player: idx for idx, player in enumerate(order)}`: the LAST occurrence
index wins for duplicates. -/
def lastIdxOf (order : List String) (s : String) : Option Nat :=
  ((order.enum.filter fun pr => pr.2 == s).map fun pr => pr.1).getLast?

/-- Sort key from the custom watchlist ordering: the mapped index of the
player name, with `fillna(999)` supplying 999 for names that are absent or
cells that are not strings. -/
def orderKey (order : List String) (w : WItem) : Int :=
  match w.item.player with
  | .str s =>
    match lastIdxOf order s with
    | some i => (i : Int)
    | none => 999
  | _ => 999

/-- Insert before the first element that is not strictly smaller. -/
def insertLe (le : α → α → Bool) (x : α) : List α → List α
  | [] => [x]
  | y :: ys => if le x y then x :: y :: ys else y :: insertLe le x ys

/-- Insertion sort by a comparison, modelling `DataFrame.sort_values` and
Python `sorted`.  The program's sort_values uses numpy quicksort, whose tie
order is NOT guaranteed (it is stable only on frames small enough for the
insertion-sort fallback), so no theorem below relies on this model's tie
order: the facts proved about sorted output (multiset preservation,
key-sortedness, rank density) hold for every sort by the same key, and the
concrete inputs evaluated in witnesses and counterexamples have
pairwise-distinct keys, on which all sorts by the key agree. -/
def sortLe (le : α → α → Bool) (l : List α) : List α := l.foldr (insertLe le) []

/-- Comparison by custom-order key. -/
def leKey (order : List String) (a b : WItem) : Bool :=
  decide (orderKey order a ≤ orderKey order b)

/-- `get_all_watch_players`: filter every board to Watch rows tagged with
their position; when the persisted custom order is nonempty, sort by
the mapped name index (999 for unmatched); re-derive ranks over the final
order; no Watch rows anywhere gives the empty view. -/
def get_all_watch_players (boards : List (Val × List Item))
    (watchlist_order : List String) : List WItem :=
  let ws := watchItems boards
  if ws = [] then []
  else
    let sorted :=
      if watchlist_order = [] then ws else sortLe (leKey watchlist_order) ws
    update_ranks_from_order_w sorted

/-! Serializer. -/

/-- One exported record: the Position cell inserted in front of the six
board cells. -/
def itemRecord (k : Val) (it : Item) : List Val :=
  [k, it.rank, it.player, it.team, it.bye, it.notes, it.status]

/-- `export_data` at the record level: boards with no rows contribute
nothing; if no board has rows the export is the empty text (no records);
otherwise a header record followed by one record per row, in store
iteration order. -/
def exportFrames (s : Store) : List (Val × List Item) :=
  s.boards.filter fun pb => pb.2 ≠ []

def exportRows (s : Store) : List (List Val) :=
  (exportFrames s).flatMap fun pb => pb.2.map (itemRecord pb.1)

def export_data (s : Store) : List (List Val) :=
  if exportFrames s = [] then []
  else (REQUIRED_COLUMNS.map Val.str) :: exportRows s

/-- The default NA tokens of `pandas.read_csv`: a cell whose text equals one
of these reads back as NaN regardless of the column dtype. -/
def NA_TOKENS : List String :=
  ["", "#N/A", "#N/A N/A", "#NA", "-1.#IND", "-1.#QNAN", "-NaN", "-nan",
   "1.#IND", "1.#QNAN", "<NA>", "N/A", "NA", "NULL", "NaN", "None",
   "n/a", "nan", "null"]

/-- Characters that can occur in a numeric literal, integer or float,
including scientific notation. -/
def numericChar (c : Char) : Bool :=
  c.isDigit || c == '+' || c == '-' || c == '.' || c == 'e' || c == 'E'

def lowerStr (s : String) : String := ⟨s.data.map Char.toLower⟩

/-- Tokens that `read_csv` can reinterpret as booleans or float specials,
matched case-insensitively (conservatively wider than the parser's own
case set). -/
def boolOrSpecialToken (s : String) : Bool :=
  lowerStr s == "true" || lowerStr s == "false" ||
    lowerStr s == "inf" || lowerStr s == "infinity"

/-- Text that pandas keeps verbatim through to_csv and read_csv: not an NA
token, not a boolean or float-special token, and containing at least one
non-whitespace character that cannot occur in a numeric literal — so the
cell parses neither as an integer nor as a float, and its presence blocks
numeric, boolean and float dtype inference for its whole column. -/
def robustText (s : String) : Bool :=
  !(NA_TOKENS.contains s) && !(boolOrSpecialToken s) &&
    (s.data.any fun c => !(numericChar c || isWs c))

/-- Can this cell live in an integer-inferred column: already numeric,
missing, an NA token, or integer text?  (Float and boolean dtype inference
are outside the model's integer numeric domain; the round-trip theorem's
`robustText` hypotheses keep every text column outside their trigger
conditions.) -/
def cellNumericOk (v : Val) : Bool :=
  match v with
  | .na => true
  | .int _ => true
  | .str s => NA_TOKENS.contains s || (pyToInt s).isSome

/-- Does `read_csv` infer a numeric column?  True when every cell is
numeric, missing, or numeric text. -/
def colIsNumeric (cells : List Val) : Bool :=
  cells.all cellNumericOk

/-- `read_csv` cell decoding for one column: text matching a default NA
token (the empty cell included) becomes NaN; in a numeric column integer
text becomes an integer; in an object column an integer cell prints back as
its digit string.  (Float and boolean dtype inference are outside the
model's integer numeric domain and fenced off by `robustText` wherever the
round-trip theorem applies.) -/
def parseCell (numericCol : Bool) (v : Val) : Val :=
  match v with
  | .na => .na
  | .int i => if numericCol then .int i else .str (toString i)
  | .str s =>
    if NA_TOKENS.contains s then .na
    else if numericCol then
      match pyToInt s with
      | some i => .int i
      | none => .str s
    else .str s

/-- Cells of column `j` across the data records (missing trailing cells read
as NaN). -/
def colCells (rows : List (List Val)) (j : Nat) : List Val :=
  rows.map fun r => r.getD j .na

/-- Total order on group keys modelling sorted `groupby` output: integers
before text before NaN (ascending sort, NaN keys last under
`dropna=False`). -/
def leVal (a b : Val) : Bool :=
  match a, b with
  | .int i, .int j => decide (i ≤ j)
  | .int _, _ => true
  | .str _, .int _ => false
  | .str s, .str t => leString s t
  | .str _, .na => true
  | .na, .na => true
  | .na, _ => false

/-- Python `sorted` on strings. -/
def sortStrings (l : List String) : List String := sortLe leString l

/-- Dict assignment on an insertion-ordered association list: an existing
key is updated in place, a new key is appended. -/
def updateAssoc (l : List (Val × List Item)) (k : Val) (v : List Item) :
    List (Val × List Item) :=
  if l.any fun p => p.1 == k then l.map fun p => if p.1 == k then (k, v) else p
  else l ++ [(k, v)]

/-- Dict lookup. -/
def lookupB (l : List (Val × List Item)) (k : Val) : Option (List Item) :=
  match l.find? fun p => p.1 == k with
  | some p => some p.2
  | none => none

/-- The required columns absent from a parsed CSV header. -/
def missingColumns (hdr : List Val) : List String :=
  REQUIRED_COLUMNS.filter fun c => ¬ (Val.str c ∈ hdr)

/-- Index of a named column in the parsed header. -/
def importIdx (hdr : List Val) (c : String) : Nat := hdr.indexOf (Val.str c)

/-- The decoded cell of column `c` in record `r` (the `cell` closure of
the import loop): read_csv column inference over the whole data section,
then per-cell decoding. -/
def importCell (hdr : List Val) (dataRows : List (List Val)) (c : String)
    (r : List Val) : Val :=
  parseCell (colIsNumeric (colCells dataRows (importIdx hdr c)))
    (r.getD (importIdx hdr c) .na)

/-- One parsed record projected to the six board columns (Position dropped),
as handed to normalize_board. -/
def importRowItem (hdr : List Val) (dataRows : List (List Val)) (r : List Val) : Item :=
  { rank := importCell hdr dataRows "Rank" r,
    player := importCell hdr dataRows "Player" r,
    team := importCell hdr dataRows "Team" r,
    bye := importCell hdr dataRows "Bye" r,
    notes := importCell hdr dataRows "Notes" r,
    status := importCell hdr dataRows "Status" r }

/-- The group keys of the import: distinct parsed Position values in sorted
order (groupby sorts group keys; NaN keys are kept by dropna=False). -/
def importKeys (hdr : List Val) (dataRows : List (List Val)) : List Val :=
  sortLe leVal ((dataRows.map fun r => importCell hdr dataRows "Position" r).dedup)

/-- Processing of one position group: the group rows are normalized and
replace that category board wholesale; an unknown category is appended to
the positions list. -/
def importStep (hdr : List Val) (dataRows : List (List Val)) (st : Store)
    (k : Val) : Store :=
  let groupRows := dataRows.filter fun r => importCell hdr dataRows "Position" r == k
  let board := normalize_board (boardToRaw (groupRows.map (importRowItem hdr dataRows)))
  { positions := if k ∈ st.positions then st.positions else st.positions ++ [k],
    boards := updateAssoc st.boards k board }

/-- `import_data` over parsed records, returning the updated store and an
error message when the import fails.  An empty text fails to parse
(`read_csv` raises, caught and reported with the generic prefix); then the
required column set is validated, a missing column aborting the import with
a message naming the sorted missing columns before any state change; on
success rows are grouped by the parsed Position value (groups in sorted key
order, NaN keys kept), each group is normalized and replaces that
category's board, and unknown categories are appended to the positions
list. -/
def import_data (csv : List (List Val)) (s : Store) : Store × Option String :=
  match csv with
  | [] => (s, some "Import failed: No columns to parse from file")
  | hdr :: dataRows =>
    let missing := missingColumns hdr
    if missing ≠ [] then
      (s, some ("Missing required columns: " ++
        String.intercalate ", " (sortStrings missing)))
    else
      ((importKeys hdr dataRows).foldl (importStep hdr dataRows) s, none)

/-! Session initialization and reset. -/

/-- Reset button handler: the positions list becomes the default list and
every default position gets a fresh empty board; the previous store is
discarded wholesale. -/
def reset_handler (_s : Store) : Store :=
  { positions := DEFAULT_POSITIONS.map Val.str,
    boards := DEFAULT_POSITIONS.map fun p => (Val.str p, []) }

/-- `initialize_session_state`: default positions, empty boards, then the RB
board is replaced by the pre-seeded sample data. -/
def initialize_session_state : Store :=
  { positions := DEFAULT_POSITIONS.map Val.str,
    boards :=
      updateAssoc (DEFAULT_POSITIONS.map fun p => (Val.str p, []))
        (Val.str "RB") sampleRB }

/-! Well-formedness predicates and projections used by the theorems. -/

/-- A board whose Rank column equals exactly 1..N in row order. -/
def ranksDense (b : List Item) : Prop :=
  b.map (fun it => it.rank) =
    (List.range b.length).map fun (i : Nat) => Val.int ((i : Int) + 1)

instance (b : List Item) : Decidable (ranksDense b) := by
  unfold ranksDense; infer_instance

/-- Ranks of a watchlist view equal exactly 1..N in row order. -/
def ranksDenseW (l : List WItem) : Prop :=
  l.map (fun w => w.item.rank) =
    (List.range l.length).map fun (i : Nat) => Val.int ((i : Int) + 1)

instance (l : List WItem) : Decidable (ranksDenseW l) := by
  unfold ranksDenseW; infer_instance

/-- Rank cells are numeric or missing (never text); on boards outside this
domain the original `add_player` raises instead of returning. -/
def wfRanks (b : List Item) : Bool :=
  b.all fun it => match it.rank with | .str _ => false | _ => true

def stripRank (it : Item) : Item := { it with rank := .na }

def stripRanks (b : List Item) : List Item := b.map stripRank

def stripRankW (w : WItem) : WItem := { w with item := stripRank w.item }

def stripRanksW (l : List WItem) : List WItem := l.map stripRankW

/-- The rank-stripped item contributed by one valid bulk line. -/
def bulkItemNa (p : PlayerData) : Item :=
  { rank := .na, player := .str (pyStrip p.player), team := .str (pyStrip p.team),
    bye := optIntVal p.bye, notes := .str (pyStrip p.notes),
    status := .str "Available" }

/-- Rank-stripped items added by `bulk_add_players`, one per nonempty line
with a nonempty name, in line order. -/
def bulkItems (text : String) : List Item :=
  (((bulkLines text).map parseBulkLine).filter fun p => ¬ p.player = "").map bulkItemNa

/-- A text cell that survives the CSV round trip unchanged: robust text,
immune to NA substitution and to numeric, boolean and float reinterpretation. -/
def textCellOk (v : Val) : Bool :=
  match v with
  | .str s => robustText s
  | _ => false

/-- A numeric cell: unset, or an integer within the int64 range pandas
itself stores (values outside int64 would not survive read_csv). -/
def numCellOk (v : Val) : Bool :=
  match v with
  | .na => true
  | .int i => decide (-9223372036854775808 ≤ i ∧ i < 9223372036854775808)
  | .str _ => false

/-- An item that survives the CSV round trip unchanged: numeric-or-unset
Rank and Bye, robust text in Player, Team and Notes, and a valid status. -/
def itemOk (it : Item) : Bool :=
  numCellOk it.rank && textCellOk it.player && textCellOk it.team &&
    numCellOk it.bye && textCellOk it.notes &&
    decide (it.status ∈ STATUS_OPTIONS.map Val.str)

/-- Stores on which export followed by import reproduces the state: distinct
string category keys (robust text, listed in the positions list), items
that survive the round trip, and at least one row somewhere (an empty
export cannot be parsed back). -/
def RoundTripOk (s : Store) : Prop :=
  (s.boards.map Prod.fst).Nodup
  ∧ (∀ kb ∈ s.boards, textCellOk kb.1 = true ∧ kb.1 ∈ s.positions
      ∧ ∀ it ∈ kb.2, itemOk it = true)
  ∧ (s.boards.any fun kb => kb.2 != []) = true

instance (s : Store) : Decidable (RoundTripOk s) := by
  unfold RoundTripOk; infer_instance

def roundStore : Store :=
  { positions := [Val.str "QB", Val.str "RB"],
    boards := [(Val.str "QB",
      [ { rank := .int 1, player := .str "Tom", team := .str "NE", bye := .int 9,
          notes := .str "ok", status := .str "Watch" } ]), (Val.str "RB", [])] }

def bigOrder : List String := List.replicate 1000 "Filler" ++ ["Target"]

def sentinelBoards : List (Val × List Item) :=
  [(Val.str "QB",
    [ { rank := .int 1, player := .str "Zed", team := .str "AA", bye := .na,
        notes := .str "", status := .str "Watch" },
      { rank := .int 2, player := .str "Target", team := .str "BB", bye := .na,
        notes := .str "", status := .str "Watch" } ])]

/-! Lemmas about rank derivation. -/

/-- A board with a non-dense rank, as left behind by an import. -/
def badRankBoard : List Item :=
  [ { rank := .int 7, player := .str "A", team := .str "", bye := .na,
      notes := .str "", status := .str "Available" } ]

def reconBoard : List Item :=
  [ { rank := .int 1, player := .str "A", team := .str "X", bye := .na,
      notes := .str "", status := .str "Available" },
    { rank := .int 2, player := .str "B", team := .str "Y", bye := .na,
      notes := .str "", status := .str "Available" } ]

/-- The reconcile example snapshot: reordered, B restatused to Watch. -/
def reconSnap : List Item :=
  [ { rank := .int 2, player := .str "B", team := .str "Y", bye := .na,
      notes := .str "", status := .str "Watch" },
    { rank := .int 1, player := .str "A", team := .str "X", bye := .na,
      notes := .str "", status := .str "Available" } ]

def reconResult : List Item :=
  [ { rank := .int 1, player := .str "B", team := .str "Y", bye := .na,
      notes := .str "", status := .str "Watch" },
    { rank := .int 2, player := .str "A", team := .str "X", bye := .na,
      notes := .str "", status := .str "Available" } ]

def bulkExample : String := "Alice|SF|9|good\n  \nBob||x|"

def aliceNa : Item :=
  { rank := .na, player := .str "Alice", team := .str "SF", bye := .int 9,
    notes := .str "good", status := .str "Available" }

def bobNa : Item :=
  { rank := .na, player := .str "Bob", team := .str "", bye := .na,
    notes := .str "", status := .str "Available" }

def pSample : PlayerData :=
  { player := "  Tom ", team := "SF", bye := some 9, notes := " solid ",
    statusInput := .str "Drafted" }

/-- Store with a single empty board: its export is empty and cannot be
parsed back. -/
def emptyQBStore : Store := { positions := [Val.str "QB"], boards := [(Val.str "QB", [])] }

/-- Small watch boards for the aggregator witness. -/
def watchStoreBoards : List (Val × List Item) :=
  [ (Val.str "QB",
      [ { rank := .int 1, player := .str "Alice", team := .str "SF", bye := .int 9,
          notes := .str "", status := .str "Watch" },
        { rank := .int 2, player := .str "Carl", team := .str "LA", bye := .na,
          notes := .str "", status := .str "Available" } ]),
    (Val.str "RB",
      [ { rank := .int 1, player := .str "Bob", team := .str "NYJ", bye := .int 12,
          notes := .str "", status := .str "Watch" } ]) ]

def smallOrder : List String := ["Bob", "Alice"]

/-- The fold step of `bulk_add_players`. -/
def bulkStep (acc : List Item) (line : String) : List Item :=
  let p := parseBulkLine line
  if p.player = "" then acc else add_player acc p

def itemSample : Item :=
  { rank := .str "abc", player := .str "Tom", team := .na, bye := .str "9",
    notes := .na, status := .str "Bogus" }

def rbSample : RawBoard :=
  { hasRank := true, hasPlayer := true, hasTeam := false, hasBye := true,
    hasNotes := false, hasStatus := true, rows := [itemSample] }

theorem assignRanks_length (n : Int) (l : List Item) :
    (assignRanks n l).length = l.length := by
  induction l generalizing n with
  | nil => rfl
  | cons it rest ih => simp [assignRanks, ih]

theorem assignRanks_map_rank (n : Int) (l : List Item) :
    (assignRanks n l).map (fun it => it.rank) =
      (List.range l.length).map fun (i : Nat) => Val.int (n + (i : Int)) := by
  induction l generalizing n with
  | nil => rfl
  | cons it rest ih =>
    simp only [assignRanks, List.map_cons, List.length_cons, List.range_succ_eq_map,
      List.map_map, ih]
    congr 1
    · simp
    · apply List.map_congr_left
      intro i _
      simp only [Function.comp_apply]
      congr 1
      push_cast
      ring

theorem ranksDense_update (b : List Item) : ranksDense (update_ranks_from_order b) := by
  unfold ranksDense update_ranks_from_order
  by_cases h : b = []
  · simp [h]
  · rw [if_neg h, assignRanks_map_rank, assignRanks_length]
    apply List.map_congr_left
    intro i _
    congr 1
    ring

theorem stripRanks_assignRanks (n : Int) (l : List Item) :
    stripRanks (assignRanks n l) = stripRanks l := by
  induction l generalizing n with
  | nil => rfl
  | cons it rest ih => simp [assignRanks, stripRanks, stripRank, List.map_cons] at ih ⊢; exact ih _

theorem stripRanks_update (b : List Item) :
    stripRanks (update_ranks_from_order b) = stripRanks b := by
  unfold update_ranks_from_order
  by_cases h : b = []
  · simp [h]
  · simp [h, stripRanks_assignRanks]

theorem assignRanks_append (n : Int) (l1 l2 : List Item) :
    assignRanks n (l1 ++ l2) = assignRanks n l1 ++ assignRanks (n + l1.length) l2 := by
  induction l1 generalizing n with
  | nil => simp [assignRanks]
  | cons it rest ih =>
    have hn : n + ((rest.length : Int) + 1) = n + 1 + (rest.length : Int) := by ring
    simp only [List.cons_append, assignRanks, List.append_eq, ih, List.length_cons,
      Nat.cast_add, Nat.cast_one, hn]

/-! Lemmas about the stable sort. -/

theorem insertLe_perm (le : α → α → Bool) (x : α) (l : List α) :
    List.Perm (insertLe le x l) (x :: l) := by
  induction l with
  | nil => simp [insertLe]
  | cons y ys ih =>
    by_cases h : le x y = true
    · simp [insertLe, h]
    · simp only [insertLe, h, if_false, Bool.false_eq_true]
      exact (ih.cons y).trans (List.Perm.swap x y ys)

theorem sortLe_perm (le : α → α → Bool) (l : List α) :
    List.Perm (sortLe le l) l := by
  induction l with
  | nil => simp [sortLe]
  | cons a l ih =>
    have : sortLe le (a :: l) = insertLe le a (sortLe le l) := rfl
    rw [this]
    exact (insertLe_perm le a (sortLe le l)).trans (ih.cons a)

theorem insertLe_key_sorted (key : α → Int) (x : α) (l : List α)
    (h : List.Pairwise (· ≤ ·) (l.map key)) :
    List.Pairwise (· ≤ ·)
      ((insertLe (fun a b => decide (key a ≤ key b)) x l).map key) := by
  induction l with
  | nil => simp [insertLe]
  | cons y ys ih =>
    simp only [List.map_cons, List.pairwise_cons] at h
    by_cases hxy : key x ≤ key y
    · simp only [insertLe, decide_eq_true hxy, if_true, List.map_cons]
      refine List.pairwise_cons.mpr ⟨?_, List.pairwise_cons.mpr ⟨h.1, h.2⟩⟩
      intro b hb
      simp only [List.map_cons, List.mem_cons] at hb
      rcases hb with rfl | hb
      · exact hxy
      · exact le_trans hxy (h.1 b hb)
    · have hyx : key y ≤ key x := le_of_lt (lt_of_not_le hxy)
      simp only [insertLe, decide_eq_false hxy, if_false, List.map_cons,
        Bool.false_eq_true]
      refine List.pairwise_cons.mpr ⟨?_, ih h.2⟩
      intro b hb
      have hmem : b ∈ (x :: ys).map key := by
        have hp := (insertLe_perm (fun a b => decide (key a ≤ key b)) x ys).map key
        exact hp.mem_iff.mp hb
      simp only [List.map_cons, List.mem_cons] at hmem
      rcases hmem with rfl | hmem
      · exact hyx
      · exact h.1 b hmem

theorem sortLe_key_sorted (key : α → Int) (l : List α) :
    List.Pairwise (· ≤ ·)
      ((sortLe (fun a b => decide (key a ≤ key b)) l).map key) := by
  induction l with
  | nil => simp [sortLe]
  | cons a l ih => exact insertLe_key_sorted key a _ ih

theorem assignRanksW_length (n : Int) (l : List WItem) :
    (assignRanksW n l).length = l.length := by
  induction l generalizing n with
  | nil => rfl
  | cons w rest ih => simp [assignRanksW, ih]

theorem assignRanksW_map_rank (n : Int) (l : List WItem) :
    (assignRanksW n l).map (fun w => w.item.rank) =
      (List.range l.length).map fun (i : Nat) => Val.int (n + (i : Int)) := by
  induction l generalizing n with
  | nil => rfl
  | cons w rest ih =>
    simp only [assignRanksW, List.map_cons, List.length_cons, List.range_succ_eq_map,
      List.map_map, ih]
    congr 1
    · simp
    · apply List.map_congr_left
      intro i _
      simp only [Function.comp_apply]
      congr 1
      push_cast
      ring

theorem ranksDenseW_update (l : List WItem) :
    ranksDenseW (update_ranks_from_order_w l) := by
  unfold ranksDenseW update_ranks_from_order_w
  by_cases h : l = []
  · simp [h]
  · rw [if_neg h, assignRanksW_map_rank, assignRanksW_length]
    apply List.map_congr_left
    intro i _
    congr 1
    ring

theorem stripRanksW_assignRanksW (n : Int) (l : List WItem) :
    stripRanksW (assignRanksW n l) = stripRanksW l := by
  induction l generalizing n with
  | nil => rfl
  | cons w rest ih =>
    simp only [assignRanksW, stripRanksW, stripRankW, stripRank, List.map_cons] at ih ⊢
    simp [ih]

theorem stripRanksW_update (l : List WItem) :
    stripRanksW (update_ranks_from_order_w l) = stripRanksW l := by
  unfold update_ranks_from_order_w
  by_cases h : l = []
  · simp [h]
  · simp [h, stripRanksW_assignRanksW]

theorem map_orderKey_assignRanksW (o : List String) (n : Int) (l : List WItem) :
    (assignRanksW n l).map (orderKey o) = l.map (orderKey o) := by
  induction l generalizing n with
  | nil => rfl
  | cons w rest ih =>
    simp only [assignRanksW, List.map_cons, ih]
    rfl

theorem map_orderKey_update (o : List String) (l : List WItem) :
    (update_ranks_from_order_w l).map (orderKey o) = l.map (orderKey o) := by
  unfold update_ranks_from_order_w
  by_cases h : l = []
  · simp [h]
  · simp [h, map_orderKey_assignRanksW]

/-! Lemmas about add_player and bulk_add_players. -/

theorem update_ranks_length (l : List Item) :
    (update_ranks_from_order l).length = l.length := by
  unfold update_ranks_from_order
  by_cases h : l = [] <;> simp [h, assignRanks_length]

theorem add_player_strip (b : List Item) (p : PlayerData) :
    stripRanks (add_player b p) = stripRanks b ++ [bulkItemNa p] := by
  unfold add_player
  rw [stripRanks_update]
  simp [stripRanks, stripRank, bulkItemNa, newRow]

theorem add_player_dense (b : List Item) (p : PlayerData) :
    ranksDense (add_player b p) := by
  unfold add_player
  exact ranksDense_update _

theorem add_player_length (b : List Item) (p : PlayerData) :
    (add_player b p).length = b.length + 1 := by
  unfold add_player
  rw [update_ranks_length]
  simp

theorem bulk_add_players_eq_fold (b : List Item) (text : String) :
    bulk_add_players b text = (bulkLines text).foldl bulkStep b := rfl

theorem bulk_fold_strip (lines : List String) (b : List Item) :
    stripRanks (lines.foldl bulkStep b) =
      stripRanks b ++
        (((lines.map parseBulkLine).filter fun p => ¬ p.player = "").map bulkItemNa) := by
  induction lines generalizing b with
  | nil => simp
  | cons line rest ih =>
    by_cases h : (parseBulkLine line).player = ""
    · simp only [List.foldl_cons, bulkStep, h, if_true, List.map_cons, List.filter_cons,
        decide_eq_true h, decide_not, Bool.not_true, Bool.false_eq_true, if_false]
      simpa [h] using ih b
    · have hstep : bulkStep b line = add_player b (parseBulkLine line) := by
        simp [bulkStep, h]
      rw [List.foldl_cons, hstep, ih (add_player b (parseBulkLine line)), add_player_strip]
      simp [List.filter_cons, h]

theorem bulk_fold_dense (lines : List String) (b : List Item) :
    lines.foldl bulkStep b = b ∨ ranksDense (lines.foldl bulkStep b) := by
  induction lines generalizing b with
  | nil => exact Or.inl rfl
  | cons line rest ih =>
    by_cases h : (parseBulkLine line).player = ""
    · have hstep : bulkStep b line = b := by simp [bulkStep, h]
      simpa [List.foldl_cons, hstep] using ih b
    · have hstep : bulkStep b line = add_player b (parseBulkLine line) := by
        simp [bulkStep, h]
      rw [List.foldl_cons, hstep]
      rcases ih (add_player b (parseBulkLine line)) with heq | hd
      · rw [heq]
        exact Or.inr (add_player_dense _ _)
      · exact Or.inr hd

/-! Lemmas about the normalizer. -/

theorem to_numeric_idem (v : Val) : to_numeric (to_numeric v) = to_numeric v := by
  cases v with
  | na => rfl
  | int i => rfl
  | str s =>
    simp only [to_numeric]
    cases h : pyToInt s <;> simp [to_numeric]

theorem fixStatus_mem (v : Val) : fixStatus v ∈ STATUS_OPTIONS.map Val.str := by
  unfold fixStatus
  by_cases h : v ∈ STATUS_OPTIONS.map Val.str
  · simp [h]
  · simp only [h, if_false]
    decide

theorem fixStatus_idem (v : Val) : fixStatus (fixStatus v) = fixStatus v := by
  by_cases h : v ∈ STATUS_OPTIONS.map Val.str
  · simp [fixStatus, h]
  · simp only [fixStatus, h, if_false]
    decide

theorem add_player_getLast (b : List Item) (p : PlayerData) :
    (add_player b p).getLast? =
      some { bulkItemNa p with rank := Val.int ((b.length : Int) + 1) } := by
  unfold add_player update_ranks_from_order
  have hne : b ++ [newRow b p] ≠ [] := by simp
  rw [if_neg hne, assignRanks_append]
  have harith : (1 : Int) + (b.length : Int) = (b.length : Int) + 1 := by ring
  simp [assignRanks, newRow, bulkItemNa, harith, List.getLast?_concat]

/-- C1: the rank-density invariant.  As frozen the claim fails: a mutator
call that leaves the board untouched (bulk text with no valid line, an
empty selection, an empty edited snapshot) preserves whatever Rank values
were already stored, and imported boards can carry non-dense ranks.
Amended: add_player always leaves the operated board with Rank exactly 1..N
in row order, and each of bulk_add_players, remove_selected_players and the
grid edit handler either returns the board unchanged or leaves Rank exactly
1..N.  (`wfRanks` restricts to boards on which the original add_player does
not raise computing its running max.) -/
theorem C1_rank_density_amended (b : List Item) (p : PlayerData) (text : String)
    (sel : List Nat) (snap : List Item) (hw : wfRanks b = true) :
    ranksDense (add_player b p)
    ∧ (bulk_add_players b text = b ∨ ranksDense (bulk_add_players b text))
    ∧ (remove_selected_players b sel = b ∨ ranksDense (remove_selected_players b sel))
    ∧ (reconcile_edit b snap = b ∨ ranksDense (reconcile_edit b snap)) := by
  refine ⟨add_player_dense b p, ?_, ?_, ?_⟩
  · rw [bulk_add_players_eq_fold]
    exact bulk_fold_dense _ b
  · by_cases h : sel = []
    · left
      simp [remove_selected_players, h]
    · right
      unfold remove_selected_players
      rw [if_neg h]
      exact ranksDense_update _
  · by_cases h : snap = []
    · left
      simp [reconcile_edit, h]
    · right
      unfold reconcile_edit
      rw [if_neg h]
      exact ranksDense_update _

theorem C1_rank_density_witness :
    wfRanks badRankBoard = true
    ∧ (ranksDense (add_player badRankBoard pSample)
      ∧ (bulk_add_players badRankBoard bulkExample = badRankBoard
          ∨ ranksDense (bulk_add_players badRankBoard bulkExample))
      ∧ (remove_selected_players badRankBoard [0] = badRankBoard
          ∨ ranksDense (remove_selected_players badRankBoard [0]))
      ∧ (reconcile_edit badRankBoard reconSnap = badRankBoard
          ∨ ranksDense (reconcile_edit badRankBoard reconSnap))) :=
  ⟨by decide,
    C1_rank_density_amended badRankBoard pSample bulkExample [0] reconSnap (by decide)⟩

/-- C1 fails as frozen: on a board whose stored rank is 7 (as an import can
leave behind), a bulk-add call whose text contains no valid line returns
with the board unchanged, so its Rank column is not 1..N. -/
theorem C1_rank_density_counterexample :
    bulk_add_players badRankBoard "" = badRankBoard ∧ ¬ ranksDense badRankBoard := by
  constructor
  · decide
  · decide

/-- C3: edit reconciliation.  As frozen the claim fails on an edited
snapshot with no rows: the handler only stores the snapshot when it is
nonempty, so an empty snapshot leaves the old board in place instead of
emptying it.  Amended: for a NONEMPTY edited snapshot the new board is
exactly the snapshot rows in the snapshot's order with ranks re-derived
1..N (hence every old row not content-present in the snapshot is dropped),
and the frozen example board/snapshot pair reconciles to
[B(rank1,Watch), A(rank2,Available)]; an empty snapshot leaves the board
unchanged. -/
theorem C3_reconcile_amended (b snap : List Item) (h : snap ≠ []) :
    reconcile_edit b snap = update_ranks_from_order snap
    ∧ stripRanks (reconcile_edit b snap) = stripRanks snap
    ∧ ranksDense (reconcile_edit b snap)
    ∧ reconcile_edit reconBoard reconSnap = reconResult
    ∧ reconcile_edit reconBoard [] = reconBoard := by
  have h1 : reconcile_edit b snap = update_ranks_from_order snap := by
    unfold reconcile_edit
    rw [if_neg h]
  refine ⟨h1, ?_, ?_, by decide, by decide⟩
  · rw [h1, stripRanks_update]
  · rw [h1]
    exact ranksDense_update snap

theorem C3_reconcile_witness :
    reconSnap ≠ ([] : List Item)
    ∧ (reconcile_edit reconBoard reconSnap = update_ranks_from_order reconSnap
      ∧ stripRanks (reconcile_edit reconBoard reconSnap) = stripRanks reconSnap
      ∧ ranksDense (reconcile_edit reconBoard reconSnap)
      ∧ reconcile_edit reconBoard reconSnap = reconResult
      ∧ reconcile_edit reconBoard [] = reconBoard) :=
  ⟨by decide, C3_reconcile_amended reconBoard reconSnap (by decide)⟩

/-- C3 fails as frozen: reconciling a nonempty board with an empty snapshot
(every row omitted) keeps the old board instead of producing the snapshot's
(empty) row list. -/
theorem C3_reconcile_counterexample :
    reconcile_edit reconBoard [] = reconBoard ∧ reconBoard ≠ [] := by
  constructor
  · decide
  · decide

/-- C6: bulk add.  Confirmed: the items added are exactly one per nonempty
trimmed line with a nonempty name field, in line order (the rank-stripped
board extends by `bulkItems`); on the frozen example text the added items
are Alice (bye 9) and Bob with unset bye (integer parsing of the text x
fails silently), the whitespace-only line contributing nothing. -/
theorem C6_bulk_add (b : List Item) (text : String) (hw : wfRanks b = true) :
    stripRanks (bulk_add_players b text) = stripRanks b ++ bulkItems text
    ∧ bulkItems bulkExample = [aliceNa, bobNa]
    ∧ (bulk_add_players b bulkExample).length = b.length + 2 := by
  have hgen : ∀ t : String,
      stripRanks (bulk_add_players b t) = stripRanks b ++ bulkItems t := by
    intro t
    rw [bulk_add_players_eq_fold, bulk_fold_strip]
    rfl
  refine ⟨hgen text, by decide, ?_⟩
  have h1 := congrArg List.length (hgen bulkExample)
  simp only [stripRanks, List.length_map, List.length_append] at h1
  have h2 : (bulkItems bulkExample).length = 2 := by decide
  omega

theorem C6_bulk_add_witness :
    wfRanks sampleRB = true
    ∧ (stripRanks (bulk_add_players sampleRB bulkExample) =
          stripRanks sampleRB ++ bulkItems bulkExample
      ∧ bulkItems bulkExample = [aliceNa, bobNa]
      ∧ (bulk_add_players sampleRB bulkExample).length = sampleRB.length + 2) :=
  ⟨by decide, C6_bulk_add sampleRB bulkExample (by decide)⟩

/-- C7: add_player.  Confirmed: the new row is appended at the end with
status forced to Available (any supplied status in the input dict is never
read), the Player, Team and Notes fields stripped of surrounding
whitespace, and all ranks re-derived so the new row, in last position,
holds rank N = the new length, the highest rank on the board. -/
theorem C7_add_player_contract (b : List Item) (p : PlayerData)
    (hw : wfRanks b = true) :
    stripRanks (add_player b p) = stripRanks b ++ [bulkItemNa p]
    ∧ (add_player b p).getLast? =
        some { bulkItemNa p with rank := Val.int ((b.length : Int) + 1) }
    ∧ (add_player b p).map (fun it => it.rank) =
        (List.range (b.length + 1)).map (fun (i : Nat) => Val.int ((i : Int) + 1))
    ∧ (bulkItemNa p).status = .str "Available"
    ∧ (bulkItemNa p).player = .str (pyStrip p.player) := by
  refine ⟨add_player_strip b p, add_player_getLast b p, ?_, rfl, rfl⟩
  have hd := ranksDense_update (b ++ [newRow b p])
  unfold ranksDense at hd
  have hl : (update_ranks_from_order (b ++ [newRow b p])).length = b.length + 1 := by
    rw [update_ranks_length]
    simp
  rw [hl] at hd
  unfold add_player
  exact hd

theorem C7_add_player_witness :
    wfRanks ([] : List Item) = true
    ∧ (stripRanks (add_player [] pSample) = stripRanks [] ++ [bulkItemNa pSample]
      ∧ (add_player [] pSample).getLast? =
          some { bulkItemNa pSample with
                   rank := Val.int ((([] : List Item).length : Int) + 1) }
      ∧ (add_player [] pSample).map (fun it => it.rank) =
          (List.range (([] : List Item).length + 1)).map
            (fun (i : Nat) => Val.int ((i : Int) + 1))
      ∧ (bulkItemNa pSample).status = .str "Available"
      ∧ (bulkItemNa pSample).player = .str (pyStrip pSample.player)) :=
  ⟨by decide, C7_add_player_contract [] pSample (by decide)⟩

/-- C8: the normalizer.  Confirmed: normalize_board acts row-wise (so Rank
is taken from each row's own cell, never re-derived from row position),
empty input yields the empty board rather than an error, every produced
status lies in the four-value enum, non-numeric or missing Rank and Bye
cells become unset NaN (not zero, not an error), and any status outside
the enum is coerced to Available. -/
theorem C8_normalize (rb : RawBoard) (r : Item) (s : String) (v : Val)
    (hs : pyToInt s = none) (hv : ¬ v ∈ STATUS_OPTIONS.map Val.str) :
    normalize_board rb = rb.rows.map (normRow rb)
    ∧ normalize_board { rb with rows := [] } = []
    ∧ (normRow rb r).status ∈ STATUS_OPTIONS.map Val.str
    ∧ to_numeric (.str s) = .na
    ∧ to_numeric .na = .na
    ∧ fixStatus v = .str "Available" := by
  refine ⟨?_, by simp [normalize_board], ?_, ?_, rfl, ?_⟩
  · unfold normalize_board
    by_cases h : rb.rows = [] <;> simp [h]
  · show fixStatus _ ∈ _
    exact fixStatus_mem _
  · simp [to_numeric, hs]
  · simp [fixStatus, hv]

theorem C8_normalize_witness :
    (pyToInt "abc" = none ∧ ¬ Val.str "Bogus" ∈ STATUS_OPTIONS.map Val.str)
    ∧ (normalize_board rbSample = rbSample.rows.map (normRow rbSample)
      ∧ normalize_board { rbSample with rows := [] } = []
      ∧ (normRow rbSample itemSample).status ∈ STATUS_OPTIONS.map Val.str
      ∧ to_numeric (.str "abc") = .na
      ∧ to_numeric .na = .na
      ∧ fixStatus (Val.str "Bogus") = .str "Available") :=
  ⟨⟨by decide, by decide⟩,
    C8_normalize rbSample itemSample "abc" (Val.str "Bogus") (by decide) (by decide)⟩

/-- C10: normalize_board is idempotent: renormalizing an already normalized
board (viewed as an input with every column present) changes nothing. -/
theorem C10_normalize_idempotent (rb : RawBoard) :
    normalize_board (boardToRaw (normalize_board rb)) = normalize_board rb := by
  by_cases h : rb.rows = []
  · simp [normalize_board, boardToRaw, h]
  · have hne : rb.rows.map (normRow rb) ≠ [] := by
      simpa using h
    unfold normalize_board boardToRaw
    simp only [h, if_false, hne]
    rw [List.map_map]
    apply List.map_congr_left
    intro r _
    simp [normRow, fillCol, to_numeric_idem, fixStatus_idem]

/-- C9: the Reset action.  As frozen the claim fails: the Reset button
handler replaces the store with the default category set where EVERY board
is empty; the pre-seeded RB sample board exists only in
initialize_session_state (first session setup), which Reset does not go
through.  Amended: Reset replaces the entire store with exactly the fixed
default category set, each category holding an empty board; the sample
board for the illustrative RB category is seeded only at session
initialization. -/
theorem C9_reset_amended (s : Store) (p : String) (hp : p ∈ DEFAULT_POSITIONS) :
    (reset_handler s).positions = DEFAULT_POSITIONS.map Val.str
    ∧ (reset_handler s).boards = DEFAULT_POSITIONS.map (fun q => (Val.str q, []))
    ∧ lookupB (reset_handler s).boards (Val.str p) = some []
    ∧ lookupB initialize_session_state.boards (Val.str "RB") = some sampleRB
    ∧ sampleRB ≠ [] := by
  refine ⟨rfl, rfl, ?_, by decide, by decide⟩
  simp only [DEFAULT_POSITIONS, List.mem_cons, List.not_mem_nil, or_false] at hp
  rcases hp with rfl | rfl | rfl | rfl | rfl | rfl | rfl <;> rfl

theorem C9_reset_witness :
    "RB" ∈ DEFAULT_POSITIONS
    ∧ ((reset_handler initialize_session_state).positions =
          DEFAULT_POSITIONS.map Val.str
      ∧ (reset_handler initialize_session_state).boards =
          DEFAULT_POSITIONS.map (fun q => (Val.str q, []))
      ∧ lookupB (reset_handler initialize_session_state).boards (Val.str "RB") =
          some []
      ∧ lookupB initialize_session_state.boards (Val.str "RB") = some sampleRB
      ∧ sampleRB ≠ []) :=
  ⟨by decide, C9_reset_amended initialize_session_state "RB" (by decide)⟩

/-- C9 fails as frozen: after the Reset action every category's board is
empty, while the claim requires one category to hold the pre-seeded sample
board (which only session initialization provides). -/
theorem C9_reset_counterexample :
    ((reset_handler initialize_session_state).boards.all fun kb => kb.2 == []) = true
    ∧ lookupB initialize_session_state.boards (Val.str "RB") = some sampleRB
    ∧ sampleRB ≠ [] := by
  refine ⟨by decide, by decide, by decide⟩

/-- C4: the watchlist aggregator.  As frozen the claim fails: the code uses
`fillna(999)` as the missing-name sentinel, a fixed finite value rather
than after-everything, so an item whose name sits at position 1000 or later
of the custom order sorts AFTER items whose names are absent.  Amended:
the view is empty when no item anywhere has Watch status; otherwise it
holds exactly the Watch items of all boards tagged with their source
category (a permutation once ranks are stripped), sorted by the sentinel
key (position of the name in the custom order, 999 when the name is absent
or the cell is not a string), with ranks re-derived 1..N over the final
order; the relative order of items with EQUAL keys is whatever the
quicksort of sort_values produces and is not specified; with no custom
order stored the encounter order is kept.  Every conjunct below holds for
any sort by the key, so it is true of the program's quicksort as well. -/
theorem C4_watchlist_amended (boards : List (Val × List Item)) (order : List String)
    (ho : order ≠ []) :
    (watchItems boards = [] → get_all_watch_players boards order = [])
    ∧ List.Perm (stripRanksW (get_all_watch_players boards order))
        (stripRanksW (watchItems boards))
    ∧ List.Pairwise (· ≤ ·) ((get_all_watch_players boards order).map (orderKey order))
    ∧ ranksDenseW (get_all_watch_players boards order)
    ∧ get_all_watch_players boards [] =
        update_ranks_from_order_w (watchItems boards) := by
  by_cases hws : watchItems boards = []
  · have hres : get_all_watch_players boards order = [] := by
      simp [get_all_watch_players, hws]
    have hres2 : get_all_watch_players boards [] = [] := by
      simp [get_all_watch_players, hws]
    refine ⟨fun _ => hres, ?_, ?_, ?_, ?_⟩
    · rw [hres, hws]
    · rw [hres]
      simp
    · rw [hres]
      simp [ranksDenseW, stripRanksW]
    · rw [hres2, hws]
      rfl
  · have hres : get_all_watch_players boards order =
        update_ranks_from_order_w (sortLe (leKey order) (watchItems boards)) := by
      unfold get_all_watch_players
      rw [if_neg hws, if_neg ho]
    refine ⟨fun h => absurd h hws, ?_, ?_, ?_, ?_⟩
    · rw [hres, stripRanksW_update]
      exact (sortLe_perm (leKey order) (watchItems boards)).map stripRankW
    · rw [hres, map_orderKey_update]
      exact sortLe_key_sorted (orderKey order) (watchItems boards)
    · rw [hres]
      exact ranksDenseW_update _
    · unfold get_all_watch_players
      rw [if_neg hws]
      rfl

theorem C4_watchlist_witness :
    smallOrder ≠ ([] : List String)
    ∧ ((watchItems watchStoreBoards = [] →
          get_all_watch_players watchStoreBoards smallOrder = [])
      ∧ List.Perm (stripRanksW (get_all_watch_players watchStoreBoards smallOrder))
          (stripRanksW (watchItems watchStoreBoards))
      ∧ List.Pairwise (· ≤ ·)
          ((get_all_watch_players watchStoreBoards smallOrder).map (orderKey smallOrder))
      ∧ ranksDenseW (get_all_watch_players watchStoreBoards smallOrder)
      ∧ get_all_watch_players watchStoreBoards [] =
          update_ranks_from_order_w (watchItems watchStoreBoards)) :=
  ⟨by decide, C4_watchlist_amended watchStoreBoards smallOrder (by decide)⟩

set_option maxRecDepth 100000 in
/-- C4 fails as frozen: with a persisted custom order of 1001 names, the
watch item named Zed (absent from the order, sentinel key 999) sorts BEFORE
the matched watch item named Target (key 1000), although the claim requires
every absent-name item to sort after all matched items. -/
theorem C4_watchlist_counterexample :
    ("Target" ∈ bigOrder ∧ ¬ "Zed" ∈ bigOrder)
    ∧ (get_all_watch_players sentinelBoards bigOrder).map (fun w => w.item.player) =
        [Val.str "Zed", Val.str "Target"] := by
  refine ⟨⟨by decide, by decide⟩, by decide⟩

/-- C5: import schema validation.  As frozen the claim fails on CSV text
that does not even parse to a table (the empty text): `read_csv` raises
before the schema check, and the reported failure is the generic parse
message, which does not name missing columns.  Amended: for text that
parses to a table (at least a header record) with required columns missing
the import fails with a message naming exactly the sorted missing columns
and leaves the store (boards and positions) entirely unchanged; unparseable
text still fails with the store unchanged, but with the generic message. -/
theorem C5_import_missing_columns (csv : List (List Val)) (s : Store)
    (hne : csv ≠ []) (hmiss : missingColumns (csv.headD []) ≠ []) :
    import_data csv s =
      (s, some ("Missing required columns: " ++
        String.intercalate ", " (sortStrings (missingColumns (csv.headD [])))))
    ∧ import_data [] s = (s, some "Import failed: No columns to parse from file") := by
  constructor
  · rcases csv with _ | ⟨hdr, rows⟩
    · exact absurd rfl hne
    · simp only [List.headD_cons] at hmiss ⊢
      simp [import_data, hmiss]
  · rfl

theorem C5_import_missing_witness :
    (([[Val.str "Position"]] : List (List Val)) ≠ []
      ∧ missingColumns (([[Val.str "Position"]] : List (List Val)).headD []) ≠ [])
    ∧ (import_data [[Val.str "Position"]] emptyQBStore =
        (emptyQBStore, some ("Missing required columns: " ++
          String.intercalate ", "
            (sortStrings (missingColumns
              (([[Val.str "Position"]] : List (List Val)).headD [])))))
      ∧ import_data [] emptyQBStore =
          (emptyQBStore, some "Import failed: No columns to parse from file")) :=
  ⟨⟨by decide, by decide⟩,
    C5_import_missing_columns [[Val.str "Position"]] emptyQBStore (by decide) (by decide)⟩

/-- C5 fails as frozen: the empty CSV text is missing every required column,
yet the failure it produces carries the generic parse message rather than
one naming the missing columns (the state is still left unchanged). -/
theorem C5_import_missing_counterexample :
    missingColumns (([] : List (List Val)).headD []) = REQUIRED_COLUMNS
    ∧ import_data [] emptyQBStore =
        (emptyQBStore, some "Import failed: No columns to parse from file")
    ∧ ¬ ((some "Import failed: No columns to parse from file" : Option String) =
        some ("Missing required columns: " ++
          String.intercalate ", " (sortStrings REQUIRED_COLUMNS))) := by
  refine ⟨by decide, by decide, by decide⟩

/-! Lemmas about the serializer round trip. -/

theorem itemOk_fields {it : Item} (h : itemOk it = true) :
    numCellOk it.rank = true ∧ textCellOk it.player = true ∧ textCellOk it.team = true
    ∧ numCellOk it.bye = true ∧ textCellOk it.notes = true
    ∧ it.status ∈ STATUS_OPTIONS.map Val.str := by
  simp only [itemOk, Bool.and_eq_true, decide_eq_true_eq] at h
  tauto

theorem cellNumericOk_of_numOk {v : Val} (h : numCellOk v = true) :
    cellNumericOk v = true := by
  cases v <;> simp_all [numCellOk, cellNumericOk]

theorem robustText_parts {s : String} (h : robustText s = true) :
    NA_TOKENS.contains s = false ∧ boolOrSpecialToken s = false
    ∧ (s.data.any fun c => !(numericChar c || isWs c)) = true := by
  unfold robustText at h
  simp only [Bool.and_eq_true, Bool.not_eq_true'] at h
  tauto

theorem pyToInt_some_chars {s : String} {i : Int} (h : pyToInt s = some i) :
    ∀ c ∈ s.data, numericChar c = true := by
  intro c hc
  have hdig : ∀ (l : List Char) (n : Nat), digitsToNat l = some n →
      ∀ d ∈ l, numericChar d = true := by
    intro l n hl d hd
    unfold digitsToNat at hl
    split at hl
    · rename_i hcond
      have := List.all_eq_true.mp hcond.2 d hd
      simp [numericChar, this]
    · cases hl
  rcases hs : s.data with _ | ⟨c0, rest⟩
  · rw [hs] at hc
    cases hc
  · have hred : pyToInt s =
        (if c0 == '-' then (digitsToNat rest).map fun n => -(n : Int)
         else if c0 == '+' then (digitsToNat rest).map fun n => (n : Int)
         else (digitsToNat (c0 :: rest)).map fun n => (n : Int)) := by
      unfold pyToInt
      rw [hs]
    rw [hred] at h
    rw [hs] at hc
    by_cases h0 : (c0 == '-') = true
    · rw [if_pos h0] at h
      cases hdn : digitsToNat rest with
      | none => simp [hdn] at h
      | some n =>
        rcases List.mem_cons.mp hc with rfl | hcr
        · have he : c = '-' := by simpa using h0
          rw [he]
          decide
        · exact hdig rest n hdn c hcr
    · rw [if_neg h0] at h
      by_cases h1 : (c0 == '+') = true
      · rw [if_pos h1] at h
        cases hdn : digitsToNat rest with
        | none => simp [hdn] at h
        | some n =>
          rcases List.mem_cons.mp hc with rfl | hcr
          · have he : c = '+' := by simpa using h1
            rw [he]
            decide
          · exact hdig rest n hdn c hcr
      · rw [if_neg h1] at h
        cases hdn : digitsToNat (c0 :: rest) with
        | none => simp [hdn] at h
        | some n => exact hdig (c0 :: rest) n hdn c hc

theorem pyToInt_none_of_robust {s : String} (h : robustText s = true) :
    pyToInt s = none := by
  cases hp : pyToInt s with
  | none => rfl
  | some i =>
    exfalso
    obtain ⟨c, hc, hcp⟩ := List.any_eq_true.mp (robustText_parts h).2.2
    rw [pyToInt_some_chars hp c hc] at hcp
    simp at hcp

theorem cellNumericOk_of_textOk {v : Val} (h : textCellOk v = true) :
    cellNumericOk v = false := by
  cases v with
  | na => simp [textCellOk] at h
  | int i => simp [textCellOk] at h
  | str s =>
    simp only [textCellOk] at h
    have hnotmem : s ∉ NA_TOKENS := by simpa using (robustText_parts h).1
    simp [cellNumericOk, hnotmem, pyToInt_none_of_robust h]

theorem parseCell_num_id {v : Val} (h : numCellOk v = true) :
    parseCell true v = v := by
  cases v <;> simp_all [numCellOk, parseCell]

theorem parseCell_text_id {v : Val} (h : textCellOk v = true) :
    parseCell false v = v := by
  cases v with
  | na => simp [textCellOk] at h
  | int i => simp [textCellOk] at h
  | str s =>
    simp only [textCellOk] at h
    have hnotmem : s ∉ NA_TOKENS := by simpa using (robustText_parts h).1
    simp [parseCell, hnotmem]

theorem textCellOk_of_status {v : Val} (h : v ∈ STATUS_OPTIONS.map Val.str) :
    textCellOk v = true := by
  simp only [STATUS_OPTIONS, List.map_cons, List.map_nil, List.mem_cons,
    List.not_mem_nil, or_false] at h
  rcases h with rfl | rfl | rfl | rfl <;> decide

theorem to_numeric_num_id {v : Val} (h : numCellOk v = true) :
    to_numeric v = v := by
  cases v <;> simp_all [numCellOk, to_numeric]

theorem fixStatus_mem_id {v : Val} (h : v ∈ STATUS_OPTIONS.map Val.str) :
    fixStatus v = v := by
  simp [fixStatus, h]

theorem normRow_ok_id (l : List Item) {it : Item} (h : itemOk it = true) :
    normRow (boardToRaw l) it = it := by
  obtain ⟨h1, h2, h3, h4, h5, h6⟩ := itemOk_fields h
  obtain ⟨r1, r2, r3, r4, r5, r6⟩ := it
  simp only [normRow, boardToRaw, fillCol, if_true]
  simp only at h1 h2 h3 h4 h5 h6
  simp [to_numeric_num_id h1, to_numeric_num_id h4, fixStatus_mem_id h6]

theorem normalize_ok_id (b : List Item) (h : ∀ it ∈ b, itemOk it = true) :
    normalize_board (boardToRaw b) = b := by
  unfold normalize_board
  by_cases hb : b = []
  · simp [boardToRaw, hb]
  · have hrows : (boardToRaw b).rows = b := rfl
    rw [hrows, if_neg hb]
    have hcongr : b.map (normRow (boardToRaw b)) = b.map id :=
      List.map_congr_left fun it hit => normRow_ok_id b (h it hit)
    rw [hcongr, List.map_id]

theorem filter_beq_all {α β : Type} [DecidableEq β] (f : α → β) (k : β) (l : List α)
    (h : ∀ a ∈ l, f a = k) : l.filter (fun a => f a == k) = l := by
  induction l with
  | nil => rfl
  | cons a l ih =>
    have ha : f a = k := h a (List.mem_cons_self a l)
    simp only [List.filter_cons, ha, beq_self_eq_true, if_true]
    rw [ih fun x hx => h x (List.mem_cons_of_mem a hx)]

theorem filter_beq_nil {α β : Type} [DecidableEq β] (f : α → β) (k : β) (l : List α)
    (h : ∀ a ∈ l, f a ≠ k) : l.filter (fun a => f a == k) = [] := by
  induction l with
  | nil => rfl
  | cons a l ih =>
    have ha : f a ≠ k := h a (List.mem_cons_self a l)
    simp only [List.filter_cons, beq_eq_false_iff_ne.mpr ha, if_false, Bool.false_eq_true]
    exact ih fun x hx => h x (List.mem_cons_of_mem a hx)

theorem filter_flatMap_nil (f : List Val → Val) (frames : List (Val × List Item))
    (k : Val) (hkeys : ∀ kb ∈ frames, kb.1 ≠ k)
    (hcell : ∀ kb ∈ frames, ∀ it ∈ kb.2, f (itemRecord kb.1 it) = kb.1) :
    (frames.flatMap fun kb => kb.2.map (itemRecord kb.1)).filter
      (fun r => f r == k) = [] := by
  induction frames with
  | nil => rfl
  | cons kb rest ih =>
    rw [List.flatMap_cons, List.filter_append]
    have h1 : (kb.2.map (itemRecord kb.1)).filter (fun r => f r == k) = [] := by
      apply filter_beq_nil
      intro r hr
      obtain ⟨it, hit, rfl⟩ := List.mem_map.mp hr
      rw [hcell kb (List.mem_cons_self kb rest) it hit]
      exact hkeys kb (List.mem_cons_self kb rest)
    rw [h1, List.nil_append]
    exact ih (fun x hx => hkeys x (List.mem_cons_of_mem kb hx))
      (fun x hx => hcell x (List.mem_cons_of_mem kb hx))

theorem filter_flatMap_group (f : List Val → Val) (frames : List (Val × List Item))
    (k : Val) (kb0 : Val × List Item) (hmem : kb0 ∈ frames) (hk : kb0.1 = k)
    (hnd : (frames.map Prod.fst).Nodup)
    (hcell : ∀ kb ∈ frames, ∀ it ∈ kb.2, f (itemRecord kb.1 it) = kb.1) :
    (frames.flatMap fun kb => kb.2.map (itemRecord kb.1)).filter
      (fun r => f r == k) = kb0.2.map (itemRecord kb0.1) := by
  induction frames with
  | nil => cases hmem
  | cons kb rest ih =>
    rw [List.flatMap_cons, List.filter_append]
    simp only [List.map_cons, List.nodup_cons] at hnd
    by_cases hkb : kb.1 = k
    · have hkb0 : kb0 = kb := by
        rcases List.mem_cons.mp hmem with rfl | hmem2
        · rfl
        · exfalso
          apply hnd.1
          rw [hkb, ← hk]
          exact List.mem_map_of_mem Prod.fst hmem2
      subst hkb0
      have h1 : (kb0.2.map (itemRecord kb0.1)).filter (fun r => f r == k) =
          kb0.2.map (itemRecord kb0.1) := by
        apply filter_beq_all
        intro r hr
        obtain ⟨it, hit, rfl⟩ := List.mem_map.mp hr
        rw [hcell kb0 (List.mem_cons_self kb0 rest) it hit, hk]
      have h2 : (rest.flatMap fun kb => kb.2.map (itemRecord kb.1)).filter
          (fun r => f r == k) = [] := by
        apply filter_flatMap_nil
        · intro x hx hcontra
          apply hnd.1
          rw [hkb, ← hcontra]
          exact List.mem_map_of_mem Prod.fst hx
        · exact fun x hx => hcell x (List.mem_cons_of_mem kb0 hx)
      rw [h1, h2, List.append_nil]
    · have hkb0mem : kb0 ∈ rest := by
        rcases List.mem_cons.mp hmem with rfl | hmem2
        · exact absurd hk hkb
        · exact hmem2
      have h1 : (kb.2.map (itemRecord kb.1)).filter (fun r => f r == k) = [] := by
        apply filter_beq_nil
        intro r hr
        obtain ⟨it, hit, rfl⟩ := List.mem_map.mp hr
        rw [hcell kb (List.mem_cons_self kb rest) it hit]
        exact hkb
      rw [h1, List.nil_append]
      exact ih hkb0mem hnd.2 (fun x hx => hcell x (List.mem_cons_of_mem kb hx))

theorem nodup_key_inj (l : List (Val × List Item))
    (hnd : (l.map Prod.fst).Nodup) (a b : Val × List Item)
    (ha : a ∈ l) (hb : b ∈ l) (hab : a.1 = b.1) : a = b := by
  induction l with
  | nil => cases ha
  | cons x rest ih =>
    simp only [List.map_cons, List.nodup_cons] at hnd
    rcases List.mem_cons.mp ha with rfl | ha2
    · rcases List.mem_cons.mp hb with rfl | hb2
      · rfl
      · exfalso
        apply hnd.1
        rw [hab]
        exact List.mem_map_of_mem Prod.fst hb2
    · rcases List.mem_cons.mp hb with rfl | hb2
      · exfalso
        apply hnd.1
        rw [← hab]
        exact List.mem_map_of_mem Prod.fst ha2
      · exact ih hnd.2 ha2 hb2

theorem updateAssoc_self (l : List (Val × List Item)) (kb : Val × List Item)
    (hmem : kb ∈ l) (hnd : (l.map Prod.fst).Nodup) :
    updateAssoc l kb.1 kb.2 = l := by
  unfold updateAssoc
  have hany : (l.any fun p => p.1 == kb.1) = true :=
    List.any_eq_true.mpr ⟨kb, hmem, by simp⟩
  rw [if_pos hany]
  have hcongr : (l.map fun p => if p.1 == kb.1 then (kb.1, kb.2) else p) = l.map id := by
    apply List.map_congr_left
    intro p hp
    by_cases hpk : p.1 = kb.1
    · have hpe : p = kb := nodup_key_inj l hnd p kb hp hmem hpk
      subst hpe
      simp
    · simp [beq_eq_false_iff_ne.mpr hpk]
  rw [hcongr, List.map_id]

theorem foldl_fixed {β : Type} (f : Store → β → Store) (s : Store) (ks : List β)
    (h : ∀ k ∈ ks, f s k = s) : ks.foldl f s = s := by
  induction ks with
  | nil => rfl
  | cons k rest ih =>
    rw [List.foldl_cons, h k (List.mem_cons_self k rest)]
    exact ih fun x hx => h x (List.mem_cons_of_mem k hx)

theorem colIsNumeric_true_of (rows : List (List Val)) (j : Nat)
    (h : ∀ r ∈ rows, cellNumericOk (r.getD j .na) = true) :
    colIsNumeric (colCells rows j) = true := by
  apply List.all_eq_true.mpr
  intro v hv
  obtain ⟨r, hr, rfl⟩ := List.mem_map.mp hv
  exact h r hr

theorem colIsNumeric_false_of (rows : List (List Val)) (j : Nat)
    (r0 : List Val) (h0 : r0 ∈ rows)
    (h : cellNumericOk (r0.getD j .na) = false) :
    colIsNumeric (colCells rows j) = false := by
  cases hcol : colIsNumeric (colCells rows j) with
  | false => rfl
  | true =>
    exfalso
    have := List.all_eq_true.mp hcol (r0.getD j .na)
      (List.mem_map_of_mem (fun r => r.getD j .na) h0)
    rw [h] at this
    cases this

